import Mathlib

/-!
Verification of the chess rules engine (files `board.rs`, `piece.rs`, `lib.rs`)
against its natural-language specification.

Modelling conventions:
- Rust `i8` coordinates are modelled as `Int`; the two places where the code
  casts a machine integer are modelled with an explicit two's-complement
  truncation (`i8_of_nat`).  Debug-mode arithmetic-overflow panics of Rust are
  not modelled; no claim depends on inputs reaching them.
- The 64-slot piece array is modelled as `Fin 64 → Option Piece`.
- `Result<T, String>` is modelled as `Except String T`, `Option` as `Option`.
- The functions `move_pseudo_legal`, `validate_castling` and `is_pos_attacked`
  are mutually recursive in the source (via the castling attack checks) and can
  genuinely diverge on adversarial boards, so they take an explicit `fuel`
  argument modelling the call stack; fuel is decremented exactly at the mutual
  call edges and exhaustion returns `false` (corresponding to a Rust stack
  overflow, unreachable for any call that terminates).  Bounded `while` loops
  (`cast_ray`, `path_clear`, `Move::path`) use a fixed fuel that dominates
  every terminating execution; their exhaustion branches are unreachable at
  every call site occurring in the source.
- Strings consumed by the FEN loader are modelled as `List Char`.
-/

/-- `PieceColor` from piece.rs. -/
inductive PieceColor where
  | White
  | Black
deriving DecidableEq

/-- `PieceType` from piece.rs. -/
inductive PieceType where
  | Pawn
  | Bishop
  | Knight
  | Rook
  | Queen
  | King
deriving DecidableEq

/-- `Piece` from piece.rs. -/
structure Piece where
  type_ : PieceType
  color : PieceColor
deriving DecidableEq

/-- `Offset` from piece.rs (i8 pair modelled as Int pair). -/
structure Offset where
  file : Int
  rank : Int
deriving DecidableEq

/-- `Offset::new`. -/
def Offset.new (file rank : Int) : Offset := ⟨file, rank⟩

/-- `impl Mul<i8> for Offset`. -/
instance : HMul Offset Int Offset :=
  ⟨fun o scalar => ⟨o.file * scalar, o.rank * scalar⟩⟩

/-- `BOARD_WIDTH` from board.rs. -/
def BOARD_WIDTH : Int := 8

/-- `BOARD_HEIGHT` from board.rs. -/
def BOARD_HEIGHT : Int := 8

/-- `Position` from board.rs (i8 coordinates modelled as Int). -/
structure Position where
  file : Int
  rank : Int
deriving DecidableEq

/-- `Position::new`. -/
def Position.new (file rank : Int) : Position := ⟨file, rank⟩

/-- `Position::is_on_board`. -/
def Position.is_on_board (p : Position) : Bool :=
  if ¬(p.file ≥ 0 ∧ p.rank ≥ 0) then false
  else p.file < BOARD_WIDTH && p.rank < BOARD_HEIGHT

/-- `Position::to_index`.  On-board coordinates are non-negative, so the Rust
`as usize` cast is the value itself (`Int.toNat`). -/
def Position.to_index (p : Position) : Except String Nat :=
  if ¬ p.is_on_board then .error "Position is not on board"
  else .ok (p.rank * BOARD_WIDTH + p.file).toNat

/-- Two's-complement truncation of a natural number to the `i8` range,
modelling Rust `as i8` casts.  `Int.bmod _ 256` lands in `[-128, 128)`. -/
def i8_of_nat (n : Nat) : Int := Int.bmod (n : Int) 256

/-- `Position::from_index`.  Rust `/` and `%` on `i8` truncate toward zero,
hence `Int.tdiv` / `Int.tmod`. -/
def Position.from_index (index : Nat) : Position :=
  let i : Int := i8_of_nat index
  Position.new (i.tmod BOARD_WIDTH) (i.tdiv BOARD_WIDTH)

/-- `impl Add<Offset> for Position`. -/
instance : HAdd Position Offset Position :=
  ⟨fun p o => Position.new (p.file + o.file) (p.rank + o.rank)⟩

/-- `ShapeData` from piece.rs. -/
structure ShapeData where
  forward_only : Bool
  backward_only : Bool
  distance : Int
deriving DecidableEq

/-- `MoveShape` from piece.rs. -/
inductive MoveShape where
  | Straight (data : ShapeData)
  | Diagonal (data : ShapeData)
  | Knight
deriving DecidableEq

/-- `MoveShape::from_positions`. -/
def MoveShape.from_positions (f t : Position) : Except String MoveShape :=
  if f = t then .error "From positon can't be same as to position"
  else
    let delta_file := (t.file - f.file).natAbs
    let delta_rank := (t.rank - f.rank).natAbs
    let distance : Int := max delta_file delta_rank
    if (delta_file = 2 ∧ delta_rank = 1) ∨ (delta_file = 1 ∧ delta_rank = 2) then
      .ok MoveShape.Knight
    else
      let moving_forward := t.rank > f.rank
      let moving_backward := t.rank < f.rank
      if delta_file * delta_rank = 0 then
        .ok (MoveShape.Straight ⟨moving_forward, moving_backward, distance⟩)
      else if delta_file = delta_rank then
        .ok (MoveShape.Diagonal ⟨moving_forward, moving_backward, distance⟩)
      else .error "Invalid move shape"

/-- `Move` from piece.rs (`from` and `to` collide with Lean keywords, hence `from_` / `to_`). -/
structure Move where
  from_ : Position
  to_ : Position
deriving DecidableEq

/-- `Move::new`. -/
def Move.new (f t : Position) : Move := ⟨f, t⟩

/-- `Move::shape`. -/
def Move.shape (m : Move) : Option MoveShape :=
  (MoveShape.from_positions m.from_ m.to_).toOption

/-- `Move::is_on_board`. -/
def Move.is_on_board (m : Move) : Bool :=
  m.from_.is_on_board && m.to_.is_on_board

/-- Loop body of `Move::path` (the `while current.is_on_board()` walk),
with fuel; the walk visits at most 8 on-board squares since the step is a
non-zero signum vector. -/
def Move.pathGo (target : Position) (step : Offset) : Nat → Position → List Position
  | 0, _ => []
  | fuel + 1, current =>
    if current.is_on_board then
      if current = target then [current]
      else current :: Move.pathGo target step fuel (current + step)
    else []

/-- `Move::path`. -/
def Move.path (m : Move) : Except String (List Position) :=
  if m.from_ = m.to_ then .ok []
  else
    match m.shape with
    | none => .error "Invalid move shape"
    | some shape =>
      match shape with
      | .Knight => .ok [m.to_]
      | .Straight _ | .Diagonal _ =>
        let delta_file := m.to_.file - m.from_.file
        let delta_rank := m.to_.rank - m.from_.rank
        let step := Offset.new delta_file.sign delta_rank.sign
        .ok (Move.pathGo m.to_ step 16 (m.from_ + step))

/-- `Piece::shape_allowed`. -/
def Piece.shape_allowed (p : Piece) (shape : MoveShape) : Bool :=
  match p.type_, shape with
  | .Rook, .Straight _ => true
  | .Bishop, .Diagonal _ => true
  | .Queen, .Straight _ => true
  | .Queen, .Diagonal _ => true
  | .Knight, .Knight => true
  | .King, .Straight data => decide (data.distance = 1) || decide (data.distance = 2)
  | .King, .Diagonal data => decide (data.distance = 1)
  | .Pawn, .Straight data =>
    (match p.color with
     | .White => data.forward_only && (decide (data.distance = 1) || decide (data.distance = 2))
     | .Black => data.backward_only && (decide (data.distance = 1) || decide (data.distance = 2)))
  | .Pawn, .Diagonal data =>
    (match p.color with
     | .White => data.forward_only && !data.backward_only && decide (data.distance = 1)
     | .Black => !data.forward_only && data.backward_only && decide (data.distance = 1))
  | _, _ => false

/-- `Piece::validate_pawn_rules`. -/
def Piece.validate_pawn_rules (p : Piece) (m : Move) (is_capture : Bool) : Bool :=
  match m.shape with
  | none => false
  | some shape =>
    match shape, is_capture with
    | .Straight data, false =>
      if data.distance = 2 then
        let starting_rank : Int := match p.color with | .White => 1 | .Black => 6
        decide (m.from_.rank = starting_rank)
      else decide (data.distance = 1)
    | .Diagonal data, true => decide (data.distance = 1)
    | _, _ => false

/-- `CastlingRights` from board.rs. -/
structure CastlingRights where
  white_kingside : Bool
  white_queenside : Bool
  black_kingside : Bool
  black_queenside : Bool
deriving DecidableEq

/-- `CastlingRights::new`. -/
def CastlingRights.new : CastlingRights := ⟨true, true, true, true⟩

/-- `CastlingRights::can_castle`. -/
def CastlingRights.can_castle (cr : CastlingRights) (color : PieceColor) (kingside : Bool) : Bool :=
  match color, kingside with
  | .White, true => cr.white_kingside
  | .White, false => cr.white_queenside
  | .Black, true => cr.black_kingside
  | .Black, false => cr.black_queenside

/-- `CastlingRights::disable_king_castling` (returns the updated value). -/
def CastlingRights.disable_king_castling (cr : CastlingRights) (color : PieceColor) : CastlingRights :=
  match color with
  | .White => { cr with white_kingside := false, white_queenside := false }
  | .Black => { cr with black_kingside := false, black_queenside := false }

/-- `CastlingRights::disable_rook_castling` (returns the updated value). -/
def CastlingRights.disable_rook_castling (cr : CastlingRights) (color : PieceColor) (kingside : Bool) : CastlingRights :=
  match color, kingside with
  | .White, true => { cr with white_kingside := false }
  | .White, false => { cr with white_queenside := false }
  | .Black, true => { cr with black_kingside := false }
  | .Black, false => { cr with black_queenside := false }

/-- `MoveTurn` from board.rs. -/
inductive MoveTurn where
  | White
  | Black
deriving DecidableEq

/-- `CastlingSide` from board.rs. -/
inductive CastlingSide where
  | Kingside
  | Queenside
deriving DecidableEq

/-- `Board` from board.rs; the 64-slot array is a total map on `Fin 64`. -/
structure Board where
  pieces : Fin 64 → Option Piece
  move_turn : MoveTurn
  castling_rights : CastlingRights
  en_passant_target : Option Position

/-- `Board::new`. -/
def Board.new (pieces : Fin 64 → Option Piece) (move_turn : MoveTurn)
    (castling_rights : CastlingRights) (en_passant_target : Option Position) : Board :=
  ⟨pieces, move_turn, castling_rights, en_passant_target⟩

/-- `Board::empty`. -/
def Board.empty : Board :=
  Board.new (fun _ => none) MoveTurn.White CastlingRights.new none

/-- `Board::piece_at_pos`.  `to_index` guarantees the index is below 64
(`Position.to_index_lt` below); the dead `else` branch is forced by the
dependent array type. -/
def Board.piece_at_pos (b : Board) (pos : Position) : Option Piece :=
  match pos.to_index with
  | .error _ => none
  | .ok index => if h : index < 64 then b.pieces ⟨index, h⟩ else none

/-- `Board::set` (returns the updated board). -/
def Board.set (b : Board) (pos : Position) (piece : Option Piece) : Except String Board :=
  match pos.to_index with
  | .error e => .error e
  | .ok index => .ok { b with pieces := fun j => if j.val = index then piece else b.pieces j }

/-- Loop body of `Board::cast_ray` (the `while current.is_on_board()` walk),
with fuel; at every call site the direction is a non-zero unit vector, so at
most 8 on-board squares are visited and the fuel-exhaustion branch (which in
Rust would be an infinite loop, possible only for a zero direction) is
unreachable. -/
def Board.castRayGo (b : Board) (direction : Offset) :
    Nat → Position → Option Position → Except String (Position × Option Piece)
  | 0, _, _ => .error "ray walk out of fuel"
  | fuel + 1, current, last_valid =>
    if current.is_on_board then
      match b.piece_at_pos current with
      | some piece => .ok (current, some piece)
      | none => Board.castRayGo b direction fuel (current + direction) (some current)
    else
      match last_valid with
      | some pos => .ok (pos, none)
      | none => .error "No valid positions in this direction"

/-- `Board::cast_ray`. -/
def Board.cast_ray (b : Board) (start_pos : Position) (direction : Offset) :
    Except String (Position × Option Piece) :=
  Board.castRayGo b direction 16 (start_pos + direction) none

/-- `Board::find_king`: scans the 64 slots in index order. -/
def Board.find_king (b : Board) (color : PieceColor) : Option Position :=
  (List.finRange 64).findSome? (fun index =>
    match b.pieces index with
    | none => none
    | some piece =>
      if piece.color = color ∧ piece.type_ = PieceType.King then
        some (Position.from_index index.val)
      else none)

/-- Loop body of `Board::path_clear` (the `while current != move.to()` walk),
with fuel; returns `true` when an occupied square strictly between the ends is
found.  Whenever the move has a valid shape the signum step reaches the target
in `distance` steps, and at every call site the move is on board, so at most 7
iterations happen and fuel exhaustion (a Rust infinite loop otherwise) is
unreachable. -/
def Board.pathBlockedGo (b : Board) (target : Position) (step : Offset) :
    Nat → Position → Bool
  | 0, _ => false
  | fuel + 1, current =>
    if current = target then false
    else if (b.piece_at_pos current).isSome then true
    else Board.pathBlockedGo b target step fuel (current + step)

/-- `Board::path_clear`. -/
def Board.path_clear (b : Board) (m : Move) : Bool :=
  match b.piece_at_pos m.from_ with
  | none => false
  | some moving_piece =>
    match m.shape with
    | none => false
    | some shape =>
      let blocked :=
        match shape with
        | .Knight => false
        | _ =>
          let step := Offset.new (m.to_.file - m.from_.file).sign (m.to_.rank - m.from_.rank).sign
          Board.pathBlockedGo b m.to_ step 16 (m.from_ + step)
      if blocked then false
      else
        match b.piece_at_pos m.to_ with
        | some target_piece => decide (target_piece.color ≠ moving_piece.color)
        | none => true

/-- `Board::is_move_en_passant`. -/
def Board.is_move_en_passant (b : Board) (m : Move) : Bool :=
  match b.en_passant_target with
  | none => false
  | some en_passant_target =>
    if m.to_ ≠ en_passant_target then false
    else
      match b.piece_at_pos m.from_ with
      | none => false
      | some moving_piece =>
        match moving_piece.type_ with
        | .Pawn =>
          (match m.shape, moving_piece.color with
           | some (.Diagonal data), .White =>
             data.forward_only && decide (data.distance = 1)
           | some (.Diagonal data), .Black =>
             data.backward_only && decide (data.distance = 1)
           | _, _ => false)
        | _ => false

/-- `Board::is_move_capture`. -/
def Board.is_move_capture (b : Board) (m : Move) : Bool :=
  if b.is_move_en_passant m then true
  else
    match b.piece_at_pos m.from_ with
    | none => false
    | some moving_piece =>
      match b.piece_at_pos m.to_ with
      | none => false
      | some target_piece => decide (moving_piece.color ≠ target_piece.color)

/-- `Board::get_castling`. -/
def Board.get_castling (b : Board) (m : Move) : Option CastlingSide :=
  match b.piece_at_pos m.from_ with
  | none => none
  | some moving_piece =>
    match moving_piece.type_ with
    | .King =>
      (match m.shape with
       | some (.Straight data) =>
         if data.distance = 2 then
           if m.to_.file > m.from_.file then some CastlingSide.Kingside
           else some CastlingSide.Queenside
         else none
       | _ => none)
    | _ => none

/-- The list of 8 knight offsets used in `is_pos_attacked` and `legal_moves`. -/
def knight_offsets : List Offset :=
  [Offset.new 2 1, Offset.new 2 (-1), Offset.new (-2) 1, Offset.new (-2) (-1),
   Offset.new 1 2, Offset.new 1 (-2), Offset.new (-1) 2, Offset.new (-1) (-2)]

/-- The list of 8 ray directions used in `is_pos_attacked` and `legal_moves`. -/
def ray_directions : List Offset :=
  [Offset.new 1 0, Offset.new (-1) 0, Offset.new 0 1, Offset.new 0 (-1),
   Offset.new 1 1, Offset.new 1 (-1), Offset.new (-1) 1, Offset.new (-1) (-1)]

mutual

/-- `Board::move_pseudo_legal`, with stack fuel (see the header comment). -/
def Board.move_pseudo_legalF : Nat → Board → Move → Bool
  | 0, _, _ => false
  | fuel + 1, b, m =>
    if ¬ m.is_on_board then false
    else
      match b.piece_at_pos m.from_ with
      | none => false
      | some moving_piece =>
        match m.shape with
        | none => false
        | some shape =>
          if ¬ moving_piece.shape_allowed shape then false
          else
            let pawn_ok :=
              match moving_piece.type_ with
              | .Pawn => moving_piece.validate_pawn_rules m (b.is_move_capture m)
              | _ => true
            if ! pawn_ok then false
            else
              match moving_piece.type_, b.get_castling m with
              | .King, some _ => Board.validate_castlingF fuel b m
              | _, _ => b.path_clear m

/-- `Board::validate_castling`, with stack fuel. -/
def Board.validate_castlingF : Nat → Board → Move → Bool
  | 0, _, _ => false
  | fuel + 1, b, m =>
    match b.piece_at_pos m.from_ with
    | none => false
    | some moving_piece =>
      match b.get_castling m with
      | none => false
      | some castling_side =>
        let is_kingside := match castling_side with | .Kingside => true | .Queenside => false
        if ¬ b.castling_rights.can_castle moving_piece.color is_kingside then false
        else
          let rook_file : Int := if is_kingside then 7 else 0
          let rook_pos := Position.new rook_file m.from_.rank
          let direction := if is_kingside then Offset.new (-1) 0 else Offset.new 1 0
          match b.cast_ray rook_pos direction with
          | .ok (_, some piece) =>
            (match piece.type_ with
             | .King =>
               let attacking_color :=
                 match moving_piece.color with
                 | .White => PieceColor.Black
                 | .Black => PieceColor.White
               let king_direction : Offset :=
                 match castling_side with
                 | .Kingside => Offset.new 1 0
                 | .Queenside => Offset.new (-1) 0
               let positions_to_check :=
                 [m.from_, m.from_ + king_direction * (1 : Int), m.from_ + king_direction * (2 : Int)]
               positions_to_check.all
                 (fun pos => ! Board.is_pos_attackedF fuel b pos attacking_color)
             | _ => false)
          | _ => false

/-- `Board::is_pos_attacked`, with stack fuel. -/
def Board.is_pos_attackedF : Nat → Board → Position → PieceColor → Bool
  | 0, _, _, _ => false
  | fuel + 1, b, square_pos, attacking_color =>
    let knight_candidates : List (Move × Piece) :=
      knight_offsets.filterMap (fun offset =>
        let knight_pos := square_pos + offset
        match b.piece_at_pos knight_pos with
        | some piece => some (Move.new knight_pos square_pos, piece)
        | none => none)
    let ray_candidates : List (Move × Piece) :=
      ray_directions.filterMap (fun direction =>
        match b.cast_ray square_pos direction with
        | .ok (piece_pos, some piece) => some (Move.new piece_pos square_pos, piece)
        | _ => none)
    let moves_and_pieces := knight_candidates ++ ray_candidates
    (moves_and_pieces.filter (fun mp => decide (mp.2.color = attacking_color))).any
      (fun mp => Board.move_pseudo_legalF fuel b mp.1)

end

/-- `Board::is_in_check`, with stack fuel. -/
def Board.is_in_checkF (fuel : Nat) (b : Board) (color : PieceColor) : Bool :=
  match b.find_king color with
  | none => false
  | some king_pos =>
    let attacking_color :=
      match color with
      | .White => PieceColor.Black
      | .Black => PieceColor.White
    Board.is_pos_attackedF fuel b king_pos attacking_color

/-- `Board::move_piece`. -/
def Board.move_piece (b : Board) (f t : Position) : Except String Board :=
  let piece := b.piece_at_pos f
  match b.set t piece with
  | .error e => .error e
  | .ok b1 =>
    match b1.set f none with
    | .error e => .error e
    | .ok b2 => .ok b2

/-- `Board::update_castling_rights_for_move` (returns the updated board).
The Rust `match` on the position struct literals is an if-else chain on
position equality. -/
def Board.update_castling_rights_for_move (b : Board) (m : Move) : Board :=
  let cr := b.castling_rights
  let cr :=
    if m.from_ = Position.mk 4 0 then cr.disable_king_castling .White
    else if m.from_ = Position.mk 4 7 then cr.disable_king_castling .Black
    else if m.from_ = Position.mk 0 0 then cr.disable_rook_castling .White false
    else if m.from_ = Position.mk 7 0 then cr.disable_rook_castling .White true
    else if m.from_ = Position.mk 0 7 then cr.disable_rook_castling .Black false
    else if m.from_ = Position.mk 7 7 then cr.disable_rook_castling .Black true
    else cr
  let cr :=
    if m.to_ = Position.mk 0 0 then cr.disable_rook_castling .White false
    else if m.to_ = Position.mk 7 0 then cr.disable_rook_castling .White true
    else if m.to_ = Position.mk 0 7 then cr.disable_rook_castling .Black false
    else if m.to_ = Position.mk 7 7 then cr.disable_rook_castling .Black true
    else cr
  { b with castling_rights := cr }

/-- `Board::update_en_passant_target` (returns the updated board). -/
def Board.update_en_passant_target (b : Board) (m : Move) : Board :=
  if !(match m.shape with
       | some (.Straight data) => decide (data.distance = 2)
       | _ => false) then
    { b with en_passant_target := none }
  else if !(match b.piece_at_pos m.to_ with
            | some piece => (match piece.type_ with | .Pawn => true | _ => false)
            | none => false) then
    { b with en_passant_target := none }
  else
    let target_rank := (m.from_.rank + m.to_.rank).tdiv 2
    { b with en_passant_target := some (Position.new m.to_.file target_rank) }

/-- First statement of `Board::make_move`: relocate the rook when the move is
recognized as castling. -/
def Board.castlingRookStep (b : Board) (m : Move) : Except String Board :=
  match b.get_castling m with
  | some castling_side =>
    let rookFiles : Int × Int :=
      match castling_side with
      | .Kingside => (7, 5)
      | .Queenside => (0, 3)
    let rook_from := Position.new rookFiles.1 m.from_.rank
    let rook_to := Position.new rookFiles.2 m.from_.rank
    b.move_piece rook_from rook_to
  | none => .ok b

/-- Second statement of `Board::make_move`: remove the captured pawn when the
move is an en-passant capture. -/
def Board.enPassantCaptureStep (b : Board) (m : Move) : Except String Board :=
  if b.is_move_en_passant m then
    let captured_pawn_pos := Position.new m.to_.file m.from_.rank
    b.set captured_pawn_pos none
  else .ok b

/-- `Board::make_move` (returns the next board instead of mutating; the Rust
`?` operators become explicit matches on the intermediate results). -/
def Board.make_move (b : Board) (m : Move) : Except String Board :=
  match b.castlingRookStep m with
  | .error e => .error e
  | .ok b1 =>
    match b1.enPassantCaptureStep m with
    | .error e => .error e
    | .ok b2 =>
      match b2.move_piece m.from_ m.to_ with
      | .error e => .error e
      | .ok b3 =>
        let b4 := b3.update_castling_rights_for_move m
        let b5 := b4.update_en_passant_target m
        let next_turn := match b5.move_turn with | .White => MoveTurn.Black | .Black => MoveTurn.White
        .ok { b5 with move_turn := next_turn }

/-- `Board::move_legal`, with stack fuel. -/
def Board.move_legalF (fuel : Nat) (b : Board) (m : Move) : Bool :=
  if ¬ Board.move_pseudo_legalF fuel b m then false
  else
    match b.make_move m with
    | .error _ => false
    | .ok test_board =>
      let moving_color :=
        match b.move_turn with
        | .White => PieceColor.White
        | .Black => PieceColor.Black
      ! Board.is_in_checkF fuel test_board moving_color

/-- The candidate-move generation pipeline of `Board::legal_moves`: the 8
knight-offset destinations plus, in each ray direction, every square of the
path up to and including the first occupant. -/
def Board.candidate_moves (b : Board) (pos : Position) : List Move :=
  let knight_moves := knight_offsets.map (fun offset => Move.new pos (pos + offset))
  let sliding_moves :=
    ((((ray_directions.filterMap (fun dir => (b.cast_ray pos dir).toOption)).map
        (fun hit => Move.new pos hit.1)).filterMap
        (fun m => m.path.toOption)).flatten).map
      (fun target_pos => Move.new pos target_pos)
  knight_moves ++ sliding_moves

/-- `Board::legal_moves`, with stack fuel. -/
def Board.legal_movesF (fuel : Nat) (b : Board) (pos : Position) : List Position :=
  match b.piece_at_pos pos with
  | none => []
  | some _ =>
    ((b.candidate_moves pos).filter (fun m => Board.move_legalF fuel b m)).map
      (fun m => m.to_)

/-- Splitting a character list at every character satisfying `p`, keeping
empty segments — the behaviour of Rust `str::split`. -/
def splitPred (p : Char → Bool) : List Char → List (List Char)
  | [] => [[]]
  | c :: rest =>
    if p c then [] :: splitPred p rest
    else
      match splitPred p rest with
      | [] => [[c]]
      | r :: rs => (c :: r) :: rs

/-- Rust `str::split(sep)` for a single separator character. -/
def splitOnChar (sep : Char) (cs : List Char) : List (List Char) :=
  splitPred (fun c => c = sep) cs

/-- Rust `str::split_whitespace`: split at whitespace, dropping empty
segments.  (Modelled with Lean's ASCII `Char.isWhitespace`; the claims only
exercise ASCII inputs.) -/
def split_whitespace (cs : List Char) : List (List Char) :=
  (splitPred Char.isWhitespace cs).filter (fun t => !t.isEmpty)

/-- UTF-8 byte length of a character list, the Rust `str::len`. -/
def utf8Length (cs : List Char) : Nat :=
  (cs.map Char.utf8Size).sum

/-- The `expand_digit` closure in `Board::from_fen`: a decimal digit becomes
that many `'.'` placeholders (Rust `char::to_digit(10)` accepts exactly
`'0'`–`'9'`, which is Lean's `Char.isDigit`). -/
def expand_digit (c : Char) : List Char :=
  if c.isDigit then List.replicate (c.toNat - '0'.toNat) '.' else [c]

/-- The `char_to_piece` closure in `Board::from_fen`. -/
def char_to_piece (ch : Char) : Except String (Option Piece) :=
  if ch = '.' then .ok none
  else if ch = 'P' then .ok (some ⟨.Pawn, .White⟩)
  else if ch = 'N' then .ok (some ⟨.Knight, .White⟩)
  else if ch = 'B' then .ok (some ⟨.Bishop, .White⟩)
  else if ch = 'R' then .ok (some ⟨.Rook, .White⟩)
  else if ch = 'Q' then .ok (some ⟨.Queen, .White⟩)
  else if ch = 'K' then .ok (some ⟨.King, .White⟩)
  else if ch = 'p' then .ok (some ⟨.Pawn, .Black⟩)
  else if ch = 'n' then .ok (some ⟨.Knight, .Black⟩)
  else if ch = 'b' then .ok (some ⟨.Bishop, .Black⟩)
  else if ch = 'r' then .ok (some ⟨.Rook, .Black⟩)
  else if ch = 'q' then .ok (some ⟨.Queen, .Black⟩)
  else if ch = 'k' then .ok (some ⟨.King, .Black⟩)
  else .error "Invalid piece character"

/-- The en-passant-field parser inside `Board::from_fen`.  Rust checks the
byte length, then unwraps `chars().nth(0)` and `nth(1)`; the unwrap panic
(reachable only for a single 2-byte character) is modelled as an error. -/
def parse_en_passant (square : List Char) : Except String (Option Position) :=
  if square = ['-'] then .ok none
  else if utf8Length square ≠ 2 then .error "Invalid en passant square"
  else
    match square with
    | [file_char, rank_char] =>
      let file := i8_of_nat file_char.toNat - i8_of_nat 'a'.toNat
      let rank := i8_of_nat rank_char.toNat - i8_of_nat '1'.toNat
      let pos := Position.new file rank
      if pos.is_on_board then .ok (some pos)
      else .error "En passant square out of bounds"
    | _ => .error "panic: no second character"

/-- `Board::from_fen` (the input string as a character list). -/
def Board.from_fen (fen : List Char) : Except String Board := do
  let parts := split_whitespace fen
  if parts.length ≠ 6 then throw "FEN string must have 6 parts"
  else
    let piece_placement := parts.getD 0 []
    let active_color := parts.getD 1 []
    let castling_rights_str := parts.getD 2 []
    let en_passant_square := parts.getD 3 []
    if (splitOnChar '/' piece_placement).length ≠ 8 then
      throw "FEN piece placement must have 8 ranks"
    else
      let ranks := splitOnChar '/' piece_placement
      let chars := ranks.reverse.flatten.flatMap expand_digit
      let pieces_list ← chars.mapM char_to_piece
      if pieces_list.length = 64 then
        let move_turn ←
          (match active_color with
           | ['w'] => pure MoveTurn.White
           | ['b'] => pure MoveTurn.Black
           | _ => throw "Invalid active color")
        let castling_rights : CastlingRights :=
          ⟨castling_rights_str.contains 'K', castling_rights_str.contains 'Q',
           castling_rights_str.contains 'k', castling_rights_str.contains 'q'⟩
        let en_passant_target ← parse_en_passant en_passant_square
        pure (Board.new (fun i => pieces_list.getD i.val none) move_turn
          castling_rights en_passant_target)
      else throw "Invalid number of pieces in FEN"

/-! ## Concrete boards used in counterexamples and witnesses -/

/-- Place a piece at linear index `i` of a piece map. -/
def placePiece (ps : Fin 64 → Option Piece) (i : Nat) (pc : Piece) : Fin 64 → Option Piece :=
  fun j => if j.val = i then some pc else ps j

/-- Empty piece map. -/
def noPieces : Fin 64 → Option Piece := fun _ => none

/-- White rook e1, black rook e4, black king e8; White to move; all castling
rights nominally set; no en-passant target. -/
def cexBoardC1 : Board :=
  ⟨placePiece (placePiece (placePiece noPieces 4 ⟨.Rook, .White⟩) 28 ⟨.Rook, .Black⟩)
      60 ⟨.King, .Black⟩, .White, .new, none⟩

/-- The black-rook move e4 → a4 on `cexBoardC1`. -/
def cexMoveC1 : Move := Move.new (Position.new 4 3) (Position.new 0 3)

/-! ## C9: index conversion -/

/-- `is_on_board` is the conjunction of the four coordinate bounds. -/
theorem Position.is_on_board_iff (p : Position) :
    p.is_on_board = true ↔ 0 ≤ p.file ∧ p.file < 8 ∧ 0 ≤ p.rank ∧ p.rank < 8 := by
  simp only [Position.is_on_board, BOARD_WIDTH, BOARD_HEIGHT]
  split <;> rename_i h
  · constructor
    · intro hh; cases hh
    · intro hh; exact absurd ⟨hh.1, hh.2.2.1⟩ h
  · simp only [Bool.and_eq_true, decide_eq_true_eq]
    omega

/-- C9: `to_index(p)` succeeds exactly when both coordinates of `p` are in
`[0,8)`, in which case it returns `rank*8+file` and
`from_index (to_index p) = p`; for every off-board position `to_index`
returns an error value (the total `Except` result models "never a panic"). -/
theorem c9_index_bijection (p : Position) :
    ((0 ≤ p.file ∧ p.file < 8 ∧ 0 ≤ p.rank ∧ p.rank < 8) →
      p.to_index = .ok (p.rank * 8 + p.file).toNat ∧
      Position.from_index (p.rank * 8 + p.file).toNat = p) ∧
    (¬(0 ≤ p.file ∧ p.file < 8 ∧ 0 ≤ p.rank ∧ p.rank < 8) →
      ∃ e, p.to_index = .error e) := by
  constructor
  · intro hbounds
    have hob : p.is_on_board = true := (Position.is_on_board_iff p).mpr hbounds
    constructor
    · simp [Position.to_index, hob, BOARD_WIDTH]
    · obtain ⟨f, r⟩ := p
      simp only at hbounds
      obtain ⟨h1, h2, h3, h4⟩ := hbounds
      interval_cases f <;> interval_cases r <;> decide
  · intro hbounds
    have hob : ¬ p.is_on_board = true := fun h => hbounds ((Position.is_on_board_iff p).mp h)
    refine ⟨"Position is not on board", ?_⟩
    simp [Position.to_index, hob]

/-- C9 witness: the theorem applied at the on-board position (3,4) and the
off-board position (-1,0). -/
theorem c9_index_bijection_witness :
    (Position.new 3 4).to_index = .ok 35 ∧
      Position.from_index 35 = Position.new 3 4 ∧
      ∃ e, (Position.new (-1) 0).to_index = .error e := by
  refine ⟨?_, ?_, ?_⟩
  · exact ((c9_index_bijection (Position.new 3 4)).1 (by decide)).1
  · exact ((c9_index_bijection (Position.new 3 4)).1 (by decide)).2
  · exact (c9_index_bijection (Position.new (-1) 0)).2 (by decide)

/-! ## C4: move_legal implies move_pseudo_legal -/

/-- C4: for every fuel bound, board and move, if `move_legal` returns `true`
then `move_pseudo_legal` returns `true`. -/
theorem c4_legal_implies_pseudo_legal (fuel : Nat) (b : Board) (m : Move)
    (h : Board.move_legalF fuel b m = true) :
    Board.move_pseudo_legalF fuel b m = true := by
  unfold Board.move_legalF at h
  by_cases hp : Board.move_pseudo_legalF fuel b m = true
  · exact hp
  · rw [if_pos (by simpa using hp)] at h
    cases h

/-- A lone white rook on a1, White to move. -/
def witBoardC4 : Board := ⟨placePiece noPieces 0 ⟨.Rook, .White⟩, .White, .new, none⟩

/-- C4 witness: the rook move a1 → a6 is legal on `witBoardC4`, and the
theorem yields its pseudo-legality. -/
theorem c4_legal_implies_pseudo_legal_witness :
    Board.move_legalF 64 witBoardC4 (Move.new (Position.new 0 0) (Position.new 0 5)) = true ∧
    Board.move_pseudo_legalF 64 witBoardC4 (Move.new (Position.new 0 0) (Position.new 0 5)) = true :=
  ⟨by decide, c4_legal_implies_pseudo_legal 64 witBoardC4 _ (by decide)⟩

/-! ## C1: decomposition of move_legal -/

/-- The mover's color as computed by `Board::move_legal`: it comes from the
board's turn indicator, not from the piece on the from-square. -/
def MoveTurn.toColor : MoveTurn → PieceColor
  | .White => .White
  | .Black => .Black

/-- C1 (amended): `move_legal(b, m)` is true iff `move_pseudo_legal(b, m)` is
true, `make_move` succeeds on an independent copy, and the color given by
`b`'s turn indicator — not the color of the piece on `m`'s from-square — is
not in check on that copy. -/
theorem c1_move_legal_decomposition (fuel : Nat) (b : Board) (m : Move) :
    Board.move_legalF fuel b m = true ↔
      (Board.move_pseudo_legalF fuel b m = true ∧
       ∃ test_board, b.make_move m = .ok test_board ∧
         Board.is_in_checkF fuel test_board b.move_turn.toColor = false) := by
  unfold Board.move_legalF
  by_cases hp : Board.move_pseudo_legalF fuel b m = true
  · rw [if_neg (by simp [hp])]
    cases hmk : b.make_move m with
    | error e => simp [hp, hmk]
    | ok tb =>
      simp only [hp, true_and]
      cases b.move_turn <;>
        simp [MoveTurn.toColor, Bool.not_eq_true']
  · rw [if_pos (by simpa using hp)]
    simp [hp]

/-- C1 counterexample: on `cexBoardC1` (White to move) the black-rook move
e4 → a4 is reported legal even though the piece standing on the from-square
is Black and Black is in check on the resulting copy — refuting the claim
that `move_legal` tests the from-piece's color. -/
theorem c1_counterexample :
    Board.move_legalF 64 cexBoardC1 cexMoveC1 = true ∧
    Board.move_pseudo_legalF 64 cexBoardC1 cexMoveC1 = true ∧
    cexBoardC1.piece_at_pos cexMoveC1.from_ = some ⟨.Rook, .Black⟩ ∧
    (cexBoardC1.make_move cexMoveC1).toOption.map
      (fun tb => Board.is_in_checkF 64 tb PieceColor.Black) = some true := by
  decide

/-! ## C8: is_in_check without a king -/

/-- C8: if no king of color `c` is present anywhere on the board then
`is_in_check(b, c)` is false; otherwise it returns whether the first-found
king's square is attacked by the opposing color. -/
theorem c8_is_in_check_no_king (fuel : Nat) (b : Board) (color : PieceColor) :
    ((∀ i : Fin 64, ∀ piece, b.pieces i = some piece →
        ¬(piece.color = color ∧ piece.type_ = PieceType.King)) →
      Board.is_in_checkF fuel b color = false) ∧
    (∀ king_pos, b.find_king color = some king_pos →
      Board.is_in_checkF fuel b color =
        Board.is_pos_attackedF fuel b king_pos
          (match color with | .White => PieceColor.Black | .Black => PieceColor.White)) := by
  constructor
  · intro hnone
    have hfind : b.find_king color = none := by
      apply List.findSome?_eq_none_iff.mpr
      intro i _
      cases hpi : b.pieces i with
      | none => rfl
      | some piece =>
        have := hnone i piece hpi
        simp [this]
    simp [Board.is_in_checkF, hfind]
  · intro king_pos hfind
    cases color <;> simp [Board.is_in_checkF, hfind]

/-- C8 witness: on the empty board no white king exists and `is_in_check`
returns false. -/
theorem c8_is_in_check_no_king_witness :
    Board.is_in_checkF 64 Board.empty PieceColor.White = false :=
  (c8_is_in_check_no_king 64 Board.empty PieceColor.White).1 (by decide)

/-! ## C3: validate_castling necessary conditions -/

/-- The opposing color, as matched inline in board.rs. -/
def oppositeColor : PieceColor → PieceColor
  | .White => .Black
  | .Black => .White

/-- C3 (amended): `validate_castling(b, m)` returns true only if (1) the
`CastlingRights` flag for the mover's (color, side) is set; (2) the ray cast
from the rook's home square toward the king terminates on a piece of type
King with no piece in between — this does NOT inspect the rook's home square
itself, so no rook need be present there; and (3) none of the king's start,
intermediate and destination squares is attacked by the opposing color. -/
theorem c3_validate_castling_necessary (fuel : Nat) (b : Board) (m : Move)
    (h : Board.validate_castlingF (fuel + 1) b m = true) :
    ∃ moving_piece castling_side,
      b.piece_at_pos m.from_ = some moving_piece ∧
      b.get_castling m = some castling_side ∧
      (let is_kingside := castling_side = CastlingSide.Kingside
       b.castling_rights.can_castle moving_piece.color (decide is_kingside) = true ∧
       (∃ hit_pos hit_piece,
         b.cast_ray (Position.new (if is_kingside then 7 else 0) m.from_.rank)
             (if is_kingside then Offset.new (-1) 0 else Offset.new 1 0) =
           .ok (hit_pos, some hit_piece) ∧
         hit_piece.type_ = PieceType.King) ∧
       (∀ pos ∈ [m.from_,
                 m.from_ + (if is_kingside then Offset.new 1 0 else Offset.new (-1) 0) * (1 : Int),
                 m.from_ + (if is_kingside then Offset.new 1 0 else Offset.new (-1) 0) * (2 : Int)],
         Board.is_pos_attackedF fuel b pos (oppositeColor moving_piece.color) = false)) := by
  unfold Board.validate_castlingF at h
  cases hpiece : b.piece_at_pos m.from_ with
  | none => rw [hpiece] at h; cases h
  | some moving_piece =>
    rw [hpiece] at h
    cases hside : b.get_castling m with
    | none => rw [hside] at h; cases h
    | some castling_side =>
      rw [hside] at h
      refine ⟨moving_piece, castling_side, rfl, rfl, ?_⟩
      have hopp : (match moving_piece.color with
          | PieceColor.White => PieceColor.Black
          | PieceColor.Black => PieceColor.White) = oppositeColor moving_piece.color := by
        cases moving_piece.color <;> rfl
      cases castling_side <;>
      · simp only [decide_True, decide_False] at h ⊢
        rw [hopp] at h
        split at h
        · cases h
        · rename_i hcr
          split at h
          · rename_i fst piece hray
            split at h
            · rename_i hking
              refine ⟨by simpa using hcr, ⟨fst, piece, hray, hking⟩, ?_⟩
              intro pos hpos
              have := List.all_eq_true.mp h pos hpos
              simpa using this
            · cases h
          · cases h

/-- A lone white king on e1, all castling-right flags set, no rook anywhere. -/
def cexBoardC3 : Board := ⟨placePiece noPieces 4 ⟨.King, .White⟩, .White, .new, none⟩

/-- The kingside castling move e1 → g1. -/
def castleMoveC3 : Move := Move.new (Position.new 4 0) (Position.new 6 0)

/-- C3 counterexample: on `cexBoardC3` the h1 square is empty — no rook is
present on its home square — yet `validate_castling` accepts the kingside
castle e1 → g1 (the rook-to-king ray never inspects the rook's own square,
and here it terminates on the king at e1 directly).  This refutes the
claim's assertion that success proves a rook is present on its home
square. -/
theorem c3_counterexample :
    Board.validate_castlingF 64 cexBoardC3 castleMoveC3 = true ∧
    cexBoardC3.piece_at_pos (Position.new 7 0) = none := by
  decide

/-- White king e1 and white rook h1, all rights set. -/
def witBoardC3 : Board :=
  ⟨placePiece (placePiece noPieces 4 ⟨.King, .White⟩) 7 ⟨.Rook, .White⟩, .White, .new, none⟩

/-- C3 witness: the amended theorem applied to a genuine kingside castle
position (white king e1, white rook h1). -/
theorem c3_validate_castling_necessary_witness :
    Board.validate_castlingF 64 witBoardC3 castleMoveC3 = true ∧
    ∃ moving_piece castling_side,
      witBoardC3.piece_at_pos castleMoveC3.from_ = some moving_piece ∧
      witBoardC3.get_castling castleMoveC3 = some castling_side ∧
      (let is_kingside := castling_side = CastlingSide.Kingside
       witBoardC3.castling_rights.can_castle moving_piece.color (decide is_kingside) = true ∧
       (∃ hit_pos hit_piece,
         witBoardC3.cast_ray (Position.new (if is_kingside then 7 else 0) castleMoveC3.from_.rank)
             (if is_kingside then Offset.new (-1) 0 else Offset.new 1 0) =
           .ok (hit_pos, some hit_piece) ∧
         hit_piece.type_ = PieceType.King) ∧
       (∀ pos ∈ [castleMoveC3.from_,
                 castleMoveC3.from_ +
                   (if is_kingside then Offset.new 1 0 else Offset.new (-1) 0) * (1 : Int),
                 castleMoveC3.from_ +
                   (if is_kingside then Offset.new 1 0 else Offset.new (-1) 0) * (2 : Int)],
         Board.is_pos_attackedF 63 witBoardC3 pos (oppositeColor moving_piece.color) = false)) :=
  ⟨by decide, c3_validate_castling_necessary 63 witBoardC3 castleMoveC3 (by decide)⟩

/-! ## Structural lemmas about make_move -/

/-- `Board::set` changes only the piece array. -/
theorem Board.set_fields {b : Board} {pos : Position} {piece : Option Piece} {b' : Board}
    (h : b.set pos piece = .ok b') :
    b'.move_turn = b.move_turn ∧ b'.castling_rights = b.castling_rights ∧
      b'.en_passant_target = b.en_passant_target := by
  unfold Board.set at h
  cases hidx : pos.to_index with
  | error e => rw [hidx] at h; exact Except.noConfusion h
  | ok i =>
    rw [hidx] at h
    injection h with h
    subst h
    exact ⟨rfl, rfl, rfl⟩

/-- `Board::move_piece` changes only the piece array. -/
theorem Board.move_piece_fields {b : Board} {f t : Position} {b' : Board}
    (h : b.move_piece f t = .ok b') :
    b'.move_turn = b.move_turn ∧ b'.castling_rights = b.castling_rights ∧
      b'.en_passant_target = b.en_passant_target := by
  unfold Board.move_piece at h
  simp only [] at h
  cases h1 : b.set t (b.piece_at_pos f) with
  | error e => rw [h1] at h; exact Except.noConfusion h
  | ok b1 =>
    rw [h1] at h
    simp only [] at h
    cases h2 : b1.set f none with
    | error e => rw [h2] at h; exact Except.noConfusion h
    | ok b2 =>
      rw [h2] at h
      injection h with h
      subst h
      obtain ⟨ha1, ha2, ha3⟩ := Board.set_fields h1
      obtain ⟨hb1, hb2, hb3⟩ := Board.set_fields h2
      exact ⟨hb1.trans ha1, hb2.trans ha2, hb3.trans ha3⟩

/-- A successful `make_move` factors as: some board `b3` sharing `b`'s
turn, castling rights and en-passant target (the piece relocations), then
the castling-rights update, the en-passant update, and the turn flip. -/
theorem Board.make_move_ok {b : Board} {m : Move} {b' : Board}
    (h : b.make_move m = .ok b') :
    ∃ b3 : Board,
      b3.move_turn = b.move_turn ∧
      b3.castling_rights = b.castling_rights ∧
      b3.en_passant_target = b.en_passant_target ∧
      b' =
        (let b5 := (b3.update_castling_rights_for_move m).update_en_passant_target m
         { b5 with
           move_turn := match b5.move_turn with
             | .White => MoveTurn.Black
             | .Black => MoveTurn.White }) := by
  unfold Board.make_move at h
  cases hs1 : b.castlingRookStep m with
  | error e => rw [hs1] at h; exact Except.noConfusion h
  | ok b1 =>
    rw [hs1] at h
    simp only [] at h
    have hb1 : b1.move_turn = b.move_turn ∧ b1.castling_rights = b.castling_rights ∧
        b1.en_passant_target = b.en_passant_target := by
      unfold Board.castlingRookStep at hs1
      split at hs1
      · exact Board.move_piece_fields hs1
      · injection hs1 with hs1
        subst hs1
        exact ⟨rfl, rfl, rfl⟩
    cases hs2 : b1.enPassantCaptureStep m with
    | error e => rw [hs2] at h; exact Except.noConfusion h
    | ok b2 =>
      rw [hs2] at h
      simp only [] at h
      have hb2 : b2.move_turn = b1.move_turn ∧ b2.castling_rights = b1.castling_rights ∧
          b2.en_passant_target = b1.en_passant_target := by
        unfold Board.enPassantCaptureStep at hs2
        split at hs2
        · exact Board.set_fields hs2
        · injection hs2 with hs2
          subst hs2
          exact ⟨rfl, rfl, rfl⟩
      cases hs3 : b2.move_piece m.from_ m.to_ with
      | error e => rw [hs3] at h; exact Except.noConfusion h
      | ok b3 =>
        rw [hs3] at h
        simp only [] at h
        have hb3 := Board.move_piece_fields hs3
        injection h with h
        refine ⟨b3, ?_, ?_, ?_, h.symm⟩
        · exact hb3.1.trans (hb2.1.trans hb1.1)
        · exact hb3.2.1.trans (hb2.2.1.trans hb1.2.1)
        · exact hb3.2.2.trans (hb2.2.2.trans hb1.2.2)

/-- `update_en_passant_target` leaves the castling rights unchanged. -/
theorem Board.update_ep_castling (b : Board) (m : Move) :
    (b.update_en_passant_target m).castling_rights = b.castling_rights := by
  unfold Board.update_en_passant_target
  split
  · rfl
  · split <;> rfl

/-- `update_en_passant_target` leaves the piece array unchanged. -/
theorem Board.update_ep_pieces (b : Board) (m : Move) :
    (b.update_en_passant_target m).pieces = b.pieces := by
  unfold Board.update_en_passant_target
  split
  · rfl
  · split <;> rfl

/-- `update_castling_rights_for_move` leaves the piece array unchanged. -/
theorem Board.update_cr_pieces (b : Board) (m : Move) :
    (b.update_castling_rights_for_move m).pieces = b.pieces := rfl

/-- `piece_at_pos` depends only on the piece array. -/
theorem Board.piece_at_pos_congr {b b' : Board} (hp : b.pieces = b'.pieces) (pos : Position) :
    b.piece_at_pos pos = b'.piece_at_pos pos := by
  unfold Board.piece_at_pos
  rw [hp]

/-- The exact en-passant field computed by `update_en_passant_target`. -/
theorem Board.update_ep_spec (b : Board) (m : Move) :
    (b.update_en_passant_target m).en_passant_target =
      (if ((match m.shape with
            | some (.Straight data) => decide (data.distance = 2)
            | _ => false) &&
           (match b.piece_at_pos m.to_ with
            | some piece => (match piece.type_ with | .Pawn => true | _ => false)
            | none => false)) = true
       then some (Position.new m.to_.file ((m.from_.rank + m.to_.rank).tdiv 2))
       else none) := by
  unfold Board.update_en_passant_target
  cases h1 : (match m.shape with
      | some (.Straight data) => decide (data.distance = 2)
      | _ => false) <;>
    cases h2 : (match b.piece_at_pos m.to_ with
        | some piece => (match piece.type_ with | .Pawn => true | _ => false)
        | none => false) <;>
    simp [h1, h2]

/-! ## C5: the en-passant target after make_move -/

/-- C5 (amended): after a successful `make_move(b, m)` the en-passant target
is `None` unless `m`'s shape is Straight at distance 2 and the piece standing
on `m`'s to-square after the move is a Pawn, in which case the target is the
square with `m`'s to-file and the truncated average of the from- and to-ranks
(which is the midway square, with the same file, for a genuine two-square
pawn advance, but not for a horizontal pawn move). -/
theorem c5_en_passant_after_make_move (b : Board) (m : Move) (b' : Board)
    (h : b.make_move m = .ok b') :
    b'.en_passant_target =
      (if ((match m.shape with
            | some (.Straight data) => decide (data.distance = 2)
            | _ => false) &&
           (match b'.piece_at_pos m.to_ with
            | some piece => (match piece.type_ with | .Pawn => true | _ => false)
            | none => false)) = true
       then some (Position.new m.to_.file ((m.from_.rank + m.to_.rank).tdiv 2))
       else none) := by
  obtain ⟨b3, -, -, -, hb'⟩ := Board.make_move_ok h
  have hpa : b'.piece_at_pos m.to_ =
      (b3.update_castling_rights_for_move m).piece_at_pos m.to_ := by
    apply Board.piece_at_pos_congr
    rw [hb']
    simp only []
    exact Board.update_ep_pieces _ m
  rw [hpa, hb']
  simp only []
  exact Board.update_ep_spec _ m

/-- A lone white pawn on a4. -/
def cexBoardC5 : Board := ⟨placePiece noPieces 24 ⟨.Pawn, .White⟩, .White, .new, none⟩

/-- The horizontal pawn move a4 → c4 (Straight, distance 2, not
pseudo-legal, but `make_move` applies it). -/
def cexMoveC5 : Move := Move.new (Position.new 0 3) (Position.new 2 3)

/-- C5 counterexample: applying the horizontal pawn move a4 → c4 (a Pawn
moving Straight at distance 2) succeeds and sets the en-passant target to
c4 — the destination's file with the average rank — which is NOT the square
midway between from and to (that square is b4).  This refutes the claim's
"same file, average rank" description of the stored target. -/
theorem c5_counterexample :
    (cexBoardC5.make_move cexMoveC5).toOption.map (fun b => b.en_passant_target) =
      some (some (Position.new 2 3)) ∧
    Position.new 2 3 ≠ Position.new 1 3 ∧
    cexMoveC5.shape = some (MoveShape.Straight ⟨false, false, 2⟩) ∧
    cexBoardC5.piece_at_pos cexMoveC5.from_ = some ⟨.Pawn, .White⟩ := by
  decide

/-- A lone white pawn on e2. -/
def witBoardC5 : Board := ⟨placePiece noPieces 12 ⟨.Pawn, .White⟩, .White, .new, none⟩

/-- The double pawn advance e2 → e4. -/
def witMoveC5 : Move := Move.new (Position.new 4 1) (Position.new 4 3)

/-- C5 witness: the amended theorem applied to the double advance e2 → e4
yields the en-passant target e3. -/
theorem c5_en_passant_after_make_move_witness :
    ∃ b', witBoardC5.make_move witMoveC5 = .ok b' ∧ b'.en_passant_target =
      (if ((match witMoveC5.shape with
            | some (.Straight data) => decide (data.distance = 2)
            | _ => false) &&
           (match b'.piece_at_pos witMoveC5.to_ with
            | some piece => (match piece.type_ with | .Pawn => true | _ => false)
            | none => false)) = true
       then some (Position.new witMoveC5.to_.file
            ((witMoveC5.from_.rank + witMoveC5.to_.rank).tdiv 2))
       else none) := by
  cases hmk : witBoardC5.make_move witMoveC5 with
  | error e =>
    have hok : (witBoardC5.make_move witMoveC5).toOption.isSome = true := by decide
    rw [hmk] at hok
    simp [Except.toOption] at hok
  | ok b' => exact ⟨b', rfl, c5_en_passant_after_make_move witBoardC5 witMoveC5 b' hmk⟩

/-! ## C6: castling-rights evolution -/

/-- The exact castling-rights flags computed by
`update_castling_rights_for_move`: each flag is ANDed with the negation of
its clearing condition, which depends only on the move's squares. -/
theorem Board.update_cr_spec (b : Board) (m : Move) :
    (b.update_castling_rights_for_move m).castling_rights.white_kingside =
      (b.castling_rights.white_kingside &&
        !(decide (m.from_ = Position.mk 4 0) || decide (m.from_ = Position.mk 7 0) ||
          decide (m.to_ = Position.mk 7 0))) ∧
    (b.update_castling_rights_for_move m).castling_rights.white_queenside =
      (b.castling_rights.white_queenside &&
        !(decide (m.from_ = Position.mk 4 0) || decide (m.from_ = Position.mk 0 0) ||
          decide (m.to_ = Position.mk 0 0))) ∧
    (b.update_castling_rights_for_move m).castling_rights.black_kingside =
      (b.castling_rights.black_kingside &&
        !(decide (m.from_ = Position.mk 4 7) || decide (m.from_ = Position.mk 7 7) ||
          decide (m.to_ = Position.mk 7 7))) ∧
    (b.update_castling_rights_for_move m).castling_rights.black_queenside =
      (b.castling_rights.black_queenside &&
        !(decide (m.from_ = Position.mk 4 7) || decide (m.from_ = Position.mk 0 7) ||
          decide (m.to_ = Position.mk 0 7))) := by
  unfold Board.update_castling_rights_for_move
  split_ifs <;>
    simp_all [CastlingRights.disable_king_castling, CastlingRights.disable_rook_castling]

/-- C6 (amended): under `make_move` each of the four castling-right flags
only ever transitions from true to false, never from false to true; and a
flag is cleared exactly when the move's from-square is the corresponding
king or rook home square or its to-square is the corresponding rook home
square — regardless of which piece (if any) actually stands on those
squares, so a flag can also be cleared by moves of unrelated pieces over
those squares. -/
theorem c6_castling_rights_after_make_move (b : Board) (m : Move) (b' : Board)
    (h : b.make_move m = .ok b') :
    ((b'.castling_rights.white_kingside = true → b.castling_rights.white_kingside = true) ∧
     (b'.castling_rights.white_queenside = true → b.castling_rights.white_queenside = true) ∧
     (b'.castling_rights.black_kingside = true → b.castling_rights.black_kingside = true) ∧
     (b'.castling_rights.black_queenside = true → b.castling_rights.black_queenside = true)) ∧
    (b'.castling_rights.white_kingside =
      (b.castling_rights.white_kingside &&
        !(decide (m.from_ = Position.mk 4 0) || decide (m.from_ = Position.mk 7 0) ||
          decide (m.to_ = Position.mk 7 0)))) ∧
    (b'.castling_rights.white_queenside =
      (b.castling_rights.white_queenside &&
        !(decide (m.from_ = Position.mk 4 0) || decide (m.from_ = Position.mk 0 0) ||
          decide (m.to_ = Position.mk 0 0)))) ∧
    (b'.castling_rights.black_kingside =
      (b.castling_rights.black_kingside &&
        !(decide (m.from_ = Position.mk 4 7) || decide (m.from_ = Position.mk 7 7) ||
          decide (m.to_ = Position.mk 7 7)))) ∧
    (b'.castling_rights.black_queenside =
      (b.castling_rights.black_queenside &&
        !(decide (m.from_ = Position.mk 4 7) || decide (m.from_ = Position.mk 0 7) ||
          decide (m.to_ = Position.mk 0 7)))) := by
  obtain ⟨b3, -, hcr, -, hb'⟩ := Board.make_move_ok h
  have hfin : b'.castling_rights = (b3.update_castling_rights_for_move m).castling_rights := by
    rw [hb']
    simp only []
    exact Board.update_ep_castling _ m
  obtain ⟨h1, h2, h3, h4⟩ := Board.update_cr_spec b3 m
  rw [hcr] at h1 h2 h3 h4
  rw [hfin]
  refine ⟨⟨?_, ?_, ?_, ?_⟩, h1, h2, h3, h4⟩
  · intro ht; rw [h1] at ht; simp only [Bool.and_eq_true] at ht; exact ht.1
  · intro ht; rw [h2] at ht; simp only [Bool.and_eq_true] at ht; exact ht.1
  · intro ht; rw [h3] at ht; simp only [Bool.and_eq_true] at ht; exact ht.1
  · intro ht; rw [h4] at ht; simp only [Bool.and_eq_true] at ht; exact ht.1

/-- A lone white queen on e1, all rights set. -/
def cexBoardC6 : Board := ⟨placePiece noPieces 4 ⟨.Queen, .White⟩, .White, .new, none⟩

/-- The queen move e1 → e2. -/
def cexMoveC6 : Move := Move.new (Position.new 4 0) (Position.new 4 1)

/-- C6 counterexample: moving a white QUEEN from e1 to e2 clears the white
kingside (and queenside) castling flags although no king or rook left its
home square and no rook was captured (e2 is empty and is no rook home
square).  This refutes the claim that a flag is cleared exactly when the
relevant king or rook leaves its home square or a rook is captured there:
clearing is keyed on the squares alone, not on the pieces. -/
theorem c6_counterexample :
    cexBoardC6.piece_at_pos (Position.new 4 0) = some ⟨.Queen, .White⟩ ∧
    cexBoardC6.piece_at_pos (Position.new 4 1) = none ∧
    cexBoardC6.castling_rights.white_kingside = true ∧
    (cexBoardC6.make_move cexMoveC6).toOption.map
      (fun b => b.castling_rights.white_kingside) = some false := by
  decide

/-- A lone white rook on a1, all rights set. -/
def witBoardC6 : Board := ⟨placePiece noPieces 0 ⟨.Rook, .White⟩, .White, .new, none⟩

/-- The rook move a1 → a2. -/
def witMoveC6 : Move := Move.new (Position.new 0 0) (Position.new 0 1)

/-- C6 witness: the amended theorem applied to the rook move a1 → a2 — the
white queenside flag is cleared, the three others survive. -/
theorem c6_castling_rights_after_make_move_witness :
    ∃ b', witBoardC6.make_move witMoveC6 = .ok b' ∧
      b'.castling_rights.white_queenside = false ∧
      b'.castling_rights.white_kingside = true := by
  cases hmk : witBoardC6.make_move witMoveC6 with
  | error e =>
    have hok : (witBoardC6.make_move witMoveC6).toOption.isSome = true := by decide
    rw [hmk] at hok
    simp [Except.toOption] at hok
  | ok b' =>
    obtain ⟨-, heq1, heq2, -, -⟩ := c6_castling_rights_after_make_move witBoardC6 witMoveC6 b' hmk
    refine ⟨b', rfl, ?_, ?_⟩
    · rw [heq2]; decide
    · rw [heq1]; decide

/-! ## C10: pseudo-legality never consults the turn indicator -/

/-- Auxiliary mutual-induction statement: at every fuel, the three mutually
recursive legality functions return identical results on boards that differ
only in the turn indicator. -/
theorem turnIndependenceAux (fuel : Nat) :
    ∀ (p : Fin 64 → Option Piece) (cr : CastlingRights) (ep : Option Position)
      (t t' : MoveTurn),
      (∀ m, Board.move_pseudo_legalF fuel ⟨p, t, cr, ep⟩ m =
        Board.move_pseudo_legalF fuel ⟨p, t', cr, ep⟩ m) ∧
      (∀ m, Board.validate_castlingF fuel ⟨p, t, cr, ep⟩ m =
        Board.validate_castlingF fuel ⟨p, t', cr, ep⟩ m) ∧
      (∀ sq c, Board.is_pos_attackedF fuel ⟨p, t, cr, ep⟩ sq c =
        Board.is_pos_attackedF fuel ⟨p, t', cr, ep⟩ sq c) := by
  induction fuel with
  | zero =>
    intro p cr ep t t'
    exact ⟨fun _ => rfl, fun _ => rfl, fun _ _ => rfl⟩
  | succ n ih =>
    intro p cr ep t t'
    obtain ⟨ihp, ihv, iha⟩ := ih p cr ep t t'
    have hp_fun : Board.move_pseudo_legalF n ⟨p, t, cr, ep⟩ =
        Board.move_pseudo_legalF n ⟨p, t', cr, ep⟩ := funext ihp
    have hv_fun : Board.validate_castlingF n ⟨p, t, cr, ep⟩ =
        Board.validate_castlingF n ⟨p, t', cr, ep⟩ := funext ihv
    have ha_fun : Board.is_pos_attackedF n ⟨p, t, cr, ep⟩ =
        Board.is_pos_attackedF n ⟨p, t', cr, ep⟩ := funext fun sq => funext (iha sq)
    refine ⟨fun m => ?_, fun m => ?_, fun sq c => ?_⟩
    · simp only [Board.move_pseudo_legalF, hv_fun]
      rfl
    · simp only [Board.validate_castlingF, ha_fun]
      rfl
    · simp only [Board.is_pos_attackedF, hp_fun]
      rfl

/-- C10: `move_pseudo_legal` (with all its pawn, capture and castling
sub-checks) returns the same result on any two boards that agree on the
piece array, castling rights and en-passant target and differ only in the
turn indicator. -/
theorem c10_pseudo_legal_turn_independent (fuel : Nat) (b1 b2 : Board) (m : Move)
    (hp : b1.pieces = b2.pieces) (hcr : b1.castling_rights = b2.castling_rights)
    (hep : b1.en_passant_target = b2.en_passant_target) :
    Board.move_pseudo_legalF fuel b1 m = Board.move_pseudo_legalF fuel b2 m := by
  obtain ⟨p1, t1, cr1, ep1⟩ := b1
  obtain ⟨p2, t2, cr2, ep2⟩ := b2
  simp only [] at hp hcr hep
  subst hp
  subst hcr
  subst hep
  exact (turnIndependenceAux fuel p1 cr1 ep1 t1 t2).1 m

/-- A lone white rook on a1, White to move. -/
def witBoardC10w : Board := ⟨placePiece noPieces 0 ⟨.Rook, .White⟩, .White, .new, none⟩

/-- The same position with Black to move. -/
def witBoardC10b : Board := ⟨placePiece noPieces 0 ⟨.Rook, .White⟩, .Black, .new, none⟩

/-- C10 witness: the theorem applied to two boards differing only in the
turn indicator; additionally both results evaluate to `true` here. -/
theorem c10_pseudo_legal_turn_independent_witness :
    Board.move_pseudo_legalF 64 witBoardC10w (Move.new (Position.new 0 0) (Position.new 0 2)) =
      Board.move_pseudo_legalF 64 witBoardC10b (Move.new (Position.new 0 0) (Position.new 0 2)) ∧
    Board.move_pseudo_legalF 64 witBoardC10w (Move.new (Position.new 0 0) (Position.new 0 2)) = true :=
  ⟨c10_pseudo_legal_turn_independent 64 witBoardC10w witBoardC10b _ rfl rfl rfl, by decide⟩

/-! ## C2: legal_moves versus move_legal -/

/-- Every generated candidate move starts at the queried square. -/
theorem Board.candidate_moves_from {b : Board} {p : Position} {mv : Move}
    (h : mv ∈ b.candidate_moves p) : mv.from_ = p := by
  unfold Board.candidate_moves at h
  simp only [List.mem_append, List.mem_map] at h
  rcases h with ⟨x, -, rfl⟩ | ⟨x, -, rfl⟩ <;> rfl

/-- Without a piece on the from-square no move is pseudo-legal. -/
theorem Board.pseudo_no_piece {fuel : Nat} {b : Board} {m : Move}
    (h : b.piece_at_pos m.from_ = none) : Board.move_pseudo_legalF fuel b m = false := by
  cases fuel with
  | zero => rfl
  | succ n => simp [Board.move_pseudo_legalF, h]

/-- Without a piece on the from-square no move is legal. -/
theorem Board.legal_no_piece {fuel : Nat} {b : Board} {m : Move}
    (h : b.piece_at_pos m.from_ = none) : Board.move_legalF fuel b m = false := by
  unfold Board.move_legalF
  rw [Board.pseudo_no_piece h]
  simp

/-- C2 (amended): `legal_moves(b, p)` returns exactly those squares `q` such
that `Move(p, q)` is `move_legal` AND `q` is among the generated candidate
destinations (the 8 knight-offset squares plus, in each of the 8 ray
directions, every square along the ray up to and including the first
occupant).  The candidates do NOT cover every legal destination: a
castling-shaped king move whose intermediate square is occupied can be
`move_legal` yet missing (see the counterexample), so the filtering
characterization, not the claimed full-coverage one, is what holds. -/
theorem c2_legal_moves_characterization (fuel : Nat) (b : Board) (p q : Position) :
    q ∈ Board.legal_movesF fuel b p ↔
      (Board.move_legalF fuel b (Move.new p q) = true ∧
       q ∈ (b.candidate_moves p).map (fun mv => mv.to_)) := by
  unfold Board.legal_movesF
  cases hocc : b.piece_at_pos p with
  | none =>
    constructor
    · intro hq; cases hq
    · rintro ⟨hleg, -⟩
      rw [Board.legal_no_piece (m := Move.new p q) hocc] at hleg
      cases hleg
  | some piece =>
    constructor
    · intro hq
      obtain ⟨mv, hmv, hto⟩ := List.mem_map.mp hq
      obtain ⟨hmem, hleg⟩ := List.mem_filter.mp hmv
      have hfrom := Board.candidate_moves_from hmem
      have hmv_eq : mv = Move.new p q := by
        have heta : (⟨mv.from_, mv.to_⟩ : Move) = Move.new p q := by
          rw [hfrom, hto]
          rfl
        exact heta
      rw [hmv_eq] at hmem hleg
      exact ⟨by simpa using hleg, List.mem_map.mpr ⟨Move.new p q, hmem, rfl⟩⟩
    · rintro ⟨hleg, hq⟩
      obtain ⟨mv, hmem, hto⟩ := List.mem_map.mp hq
      have hfrom := Board.candidate_moves_from hmem
      have hmv_eq : mv = Move.new p q := by
        have heta : (⟨mv.from_, mv.to_⟩ : Move) = Move.new p q := by
          rw [hfrom, hto]
          rfl
        exact heta
      rw [hmv_eq] at hmem
      exact List.mem_map.mpr ⟨Move.new p q, List.mem_filter.mpr ⟨hmem, by simpa using hleg⟩, rfl⟩

/-- White king e1, black pawn f1, black king g1; all rights set, White to
move. -/
def cexBoardC2 : Board :=
  ⟨placePiece (placePiece (placePiece noPieces 4 ⟨.King, .White⟩) 5 ⟨.Pawn, .Black⟩)
      6 ⟨.King, .Black⟩, .White, .new, none⟩

/-- C2 counterexample: on `cexBoardC2` the castling-shaped king move
e1 → g1 is `move_legal` (the rook-to-king ray from h1 terminates on the
black KING at g1, so `validate_castling` accepts it although f1 is
occupied), but g1 is not among the ray candidates from e1 — the e1-ray stops
at the occupied f1 — so `legal_moves(e1)` omits the legal destination g1.
This refutes the claimed completeness of the candidate generation. -/
theorem c2_counterexample :
    Board.move_legalF 64 cexBoardC2 (Move.new (Position.new 4 0) (Position.new 6 0)) = true ∧
    cexBoardC2.piece_at_pos (Position.new 4 0) = some ⟨.King, .White⟩ ∧
    ¬ (Position.new 6 0) ∈ Board.legal_movesF 64 cexBoardC2 (Position.new 4 0) := by
  decide

/-! ## C7: FEN piece-placement validation -/

/-- A successful `mapM char_to_piece` preserves the length and certifies
every character. -/
theorem mapM_char_to_piece_ok {chars : List Char} {l : List (Option Piece)}
    (h : chars.mapM char_to_piece = Except.ok l) :
    l.length = chars.length ∧ ∀ c ∈ chars, ∃ v, char_to_piece c = Except.ok v := by
  induction chars generalizing l with
  | nil =>
    rw [List.mapM_nil] at h
    injection h with h
    subst h
    exact ⟨rfl, by simp⟩
  | cons c cs ih =>
    rw [List.mapM_cons] at h
    simp only [Bind.bind, Except.bind, Pure.pure, Except.pure] at h
    cases hv : char_to_piece c with
    | error e => rw [hv] at h; exact Except.noConfusion h
    | ok v =>
      rw [hv] at h
      simp only [] at h
      cases hrest : cs.mapM char_to_piece with
      | error e => rw [hrest] at h; exact Except.noConfusion h
      | ok vs =>
        rw [hrest] at h
        simp only [] at h
        injection h with h
        subst h
        obtain ⟨hlen, hall⟩ := ih hrest
        refine ⟨by simp [hlen], ?_⟩
        intro x hx
        rcases List.mem_cons.mp hx with rfl | hx
        · exact ⟨v, hv⟩
        · exact hall x hx

/-- The characters accepted by `char_to_piece`. -/
theorem char_to_piece_ok_char {ch : Char} (h : ∃ v, char_to_piece ch = Except.ok v) :
    ch = '.' ∨ ch ∈ ['P', 'N', 'B', 'R', 'Q', 'K', 'p', 'n', 'b', 'r', 'q', 'k'] := by
  obtain ⟨v, hv⟩ := h
  unfold char_to_piece at hv
  by_cases e0 : ch = '.'
  · exact Or.inl e0
  · rw [if_neg e0] at hv
    by_cases e1 : ch = 'P'
    · subst e1; decide
    · rw [if_neg e1] at hv
      by_cases e2 : ch = 'N'
      · subst e2; decide
      · rw [if_neg e2] at hv
        by_cases e3 : ch = 'B'
        · subst e3; decide
        · rw [if_neg e3] at hv
          by_cases e4 : ch = 'R'
          · subst e4; decide
          · rw [if_neg e4] at hv
            by_cases e5 : ch = 'Q'
            · subst e5; decide
            · rw [if_neg e5] at hv
              by_cases e6 : ch = 'K'
              · subst e6; decide
              · rw [if_neg e6] at hv
                by_cases e7 : ch = 'p'
                · subst e7; decide
                · rw [if_neg e7] at hv
                  by_cases e8 : ch = 'n'
                  · subst e8; decide
                  · rw [if_neg e8] at hv
                    by_cases e9 : ch = 'b'
                    · subst e9; decide
                    · rw [if_neg e9] at hv
                      by_cases e10 : ch = 'r'
                      · subst e10; decide
                      · rw [if_neg e10] at hv
                        by_cases e11 : ch = 'q'
                        · subst e11; decide
                        · rw [if_neg e11] at hv
                          by_cases e12 : ch = 'k'
                          · subst e12; decide
                          · rw [if_neg e12] at hv
                            exact Except.noConfusion hv

/-- C7 (amended): `from_fen` succeeds only when the piece-placement field
(the first whitespace-separated part) consists of 8 `'/'`-separated ranks in
which every character is a decimal digit 0–9 (digit `d` denoting `d`
consecutive empty files — so `'0'` and `'9'` are also accepted, not only
1–8), a literal `'.'` (denoting one empty square), or one of the piece
letters PNBRQK/pnbrqk, and the field expands to exactly 64 squares. -/
theorem c7_from_fen_placement (fen : List Char) (b : Board)
    (h : Board.from_fen fen = .ok b) :
    (splitOnChar '/' ((split_whitespace fen).getD 0 [])).length = 8 ∧
    (∀ r ∈ splitOnChar '/' ((split_whitespace fen).getD 0 []), ∀ c ∈ r,
      c.isDigit = true ∨ c = '.' ∨
        c ∈ ['P', 'N', 'B', 'R', 'Q', 'K', 'p', 'n', 'b', 'r', 'q', 'k']) ∧
    ((splitOnChar '/' ((split_whitespace fen).getD 0 [])).reverse.flatten.flatMap
        expand_digit).length = 64 := by
  unfold Board.from_fen at h
  simp only [] at h
  split at h
  · exact Except.noConfusion h
  · split at h
    · exact Except.noConfusion h
    · rename_i hparts hranks
      simp only [Bind.bind, Except.bind] at h
      cases hmapM : (((splitOnChar '/' ((split_whitespace fen).getD 0
          [])).reverse.flatten.flatMap expand_digit).mapM char_to_piece) with
      | error e => rw [hmapM] at h; exact Except.noConfusion h
      | ok pieces_list =>
        rw [hmapM] at h
        simp only [] at h
        split at h
        · rename_i hlen
          obtain ⟨hplen, hall⟩ := mapM_char_to_piece_ok hmapM
          refine ⟨by omega, ?_, by omega⟩
          intro r hr c hc
          by_cases hd : c.isDigit = true
          · exact Or.inl hd
          · refine Or.inr ?_
            apply char_to_piece_ok_char
            apply hall
            apply List.mem_flatMap.mpr
            refine ⟨c, ?_, ?_⟩
            · exact List.mem_flatten.mpr ⟨r, List.mem_reverse.mpr hr, hc⟩
            · unfold expand_digit
              rw [if_neg (by simpa using hd)]
              exact List.mem_singleton.mpr rfl
        · exact Except.noConfusion h

/-- A FEN whose placement field contains the digit `'0'` (not in 1–8). -/
def cexFenC7 : List Char :=
  "rnbqkbnr0/pppppppp/8/8/8/8/PPPPPPPP/RNBQKBNR w KQkq - 0 1".toList

/-- C7 counterexample: `from_fen` accepts a placement field containing the
character `'0'`, which is neither a digit in 1–8 nor a piece letter
(`'0'` expands to zero empty files, so the field still decodes to 64
squares).  This refutes the claim that any character outside 1–8 and
PNBRQK/pnbrqk is a parse error. -/
theorem c7_counterexample :
    (Board.from_fen cexFenC7).toOption.isSome = true ∧
    '0' ∈ (split_whitespace cexFenC7).getD 0 [] ∧
    ¬ '0' ∈ ['1', '2', '3', '4', '5', '6', '7', '8'] ∧
    ¬ '0' ∈ ['P', 'N', 'B', 'R', 'Q', 'K', 'p', 'n', 'b', 'r', 'q', 'k'] := by
  decide

/-- The standard starting-position FEN. -/
def witFenC7 : List Char :=
  "rnbqkbnr/pppppppp/8/8/8/8/PPPPPPPP/RNBQKBNR w KQkq - 0 1".toList

/-- C7 witness: the amended theorem applied to the standard starting FEN. -/
theorem c7_from_fen_placement_witness :
    (splitOnChar '/' ((split_whitespace witFenC7).getD 0 [])).length = 8 ∧
    (∀ r ∈ splitOnChar '/' ((split_whitespace witFenC7).getD 0 []), ∀ c ∈ r,
      c.isDigit = true ∨ c = '.' ∨
        c ∈ ['P', 'N', 'B', 'R', 'Q', 'K', 'p', 'n', 'b', 'r', 'q', 'k']) ∧
    ((splitOnChar '/' ((split_whitespace witFenC7).getD 0 [])).reverse.flatten.flatMap
        expand_digit).length = 64 := by
  cases hmk : Board.from_fen witFenC7 with
  | error e =>
    have hok : (Board.from_fen witFenC7).toOption.isSome = true := by decide
    rw [hmk] at hok
    simp [Except.toOption] at hok
  | ok b => exact c7_from_fen_placement witFenC7 b hmk
